import Mathlib

/-!
Verification development for the `rust-chat-server` test client
(`src/test-client/src/client.rs`).

The client exchanges JSON-encoded `Message` values over a websocket.  We
shallowly embed the wire model (`Message`, `MessageType`, `PeerInfo`,
serde_json's externally tagged encoding), the handshake loop of
`Client::connect`, the inbound render loop (`ws_to_stdout`), and the stdin
command parser (`read_stdin`).

Modelling conventions:
* Rust `&str` / `String` become Lean `String`; `i32` becomes `Int` together
  with the explicit range predicate `inRangeI32` (serde_json rejects
  out-of-range numbers when deserializing an `i32`).
* Rust `HashSet<String>` becomes `Finset String` (equality of `HashSet` is
  set equality).  Serialization iterates the set in an unspecified order; the
  model fixes the canonical sorted order.
* A transport frame is either a JSON document or `malformed` (text that does
  not parse as JSON / is not valid UTF-8).
* JSON objects are modelled with fields in serde's declaration order, the
  order `serde_json::to_string` emits.
* Panics (`unwrap`, out-of-bounds indexing) are modelled as `none` / abort
  flags.
-/

namespace RustChat

/-- JSON value tree, the shape `serde_json` parses a text frame into. -/
inductive Json where
  | str (s : String)
  | num (n : Int)
  | arr (xs : List Json)
  | obj (fields : List (String × Json))

/-- Roster snapshot carried by `PeerInfoReply` (struct `PeerInfo`). -/
structure PeerInfo where
  peers_online : Int
  peer_spots_left : Int
  peer_names : Finset String
deriving DecidableEq

/-- The seven-variant tagged union `MessageType` from `client.rs`. -/
inductive MessageType where
  | NewPeer (peer : String)
  | DisconPeer (peer : String)
  | PeerNameAssign (name : String)
  | PeerInfoRequest
  | PeerInfoReply (info : PeerInfo)
  | Private (recipient : String)
  | Text
deriving DecidableEq

/-- One unit of protocol exchange (struct `Message`). -/
structure Message where
  src_name : String
  src_addr : String
  msg_type : MessageType
  text : String
deriving DecidableEq

/-- A transport frame: one websocket text message.  `malformed` stands for a
frame whose text does not parse as a JSON document (including invalid text
encoding). -/
inductive Frame where
  | malformed
  | json (j : Json)

/-- Decode failures of `serde_json::from_str::<Message>`. -/
inductive DecodeError where
  | invalidText
  | missingTag
  | wrongShape
deriving DecidableEq

/-- Range of Rust's `i32`, which serde enforces when deserializing. -/
def inRangeI32 (n : Int) : Bool :=
  (-2147483648 ≤ n) && (n < 2147483648)

/-- Canonical iteration order used to serialize a `HashSet<String>`. -/
def sortedNames (s : Finset String) : List String :=
  s.sort (· ≤ ·)

/-- Serde encoding of `PeerInfo`: an object with its three fields. -/
def encodePeerInfo (p : PeerInfo) : Json :=
  .obj [("peers_online", .num p.peers_online),
        ("peer_spots_left", .num p.peer_spots_left),
        ("peer_names", .arr ((sortedNames p.peer_names).map .str))]

/-- Serde's externally tagged encoding of `MessageType`: unit variants are a
bare string, newtype variants a one-field object. -/
def encodeMsgType : MessageType → Json
  | .NewPeer s => .obj [("NewPeer", .str s)]
  | .DisconPeer s => .obj [("DisconPeer", .str s)]
  | .PeerNameAssign s => .obj [("PeerNameAssign", .str s)]
  | .PeerInfoRequest => .str "PeerInfoRequest"
  | .PeerInfoReply p => .obj [("PeerInfoReply", encodePeerInfo p)]
  | .Private s => .obj [("Private", .str s)]
  | .Text => .str "Text"

/-- Serde encoding of `Message`: object with the four fields in declaration
order, as `serde_json::to_string` emits them. -/
def encodeMessage (m : Message) : Json :=
  .obj [("src_name", .str m.src_name),
        ("src_addr", .str m.src_addr),
        ("msg_type", encodeMsgType m.msg_type),
        ("text", .str m.text)]

/-- `encode`: a `Message` becomes one JSON text frame. -/
def encode (m : Message) : Frame :=
  .json (encodeMessage m)

/-- Expect a JSON string (a `&str` / `String` field). -/
def asStr : Json → Except DecodeError String
  | .str s => .ok s
  | _ => .error .wrongShape

/-- Expect a JSON number in `i32` range (an `i32` field). -/
def asI32 : Json → Except DecodeError Int
  | .num n => if inRangeI32 n then .ok n else .error .wrongShape
  | _ => .error .wrongShape

/-- Decode a JSON array's elements as strings. -/
def decodeStrs : List Json → Except DecodeError (List String)
  | [] => .ok []
  | j :: js =>
    match asStr j with
    | .error e => .error e
    | .ok s =>
      match decodeStrs js with
      | .error e => .error e
      | .ok rest => .ok (s :: rest)

/-- Expect a JSON array of strings (a `HashSet<String>` field); collecting
into the set deduplicates. -/
def asNameSet : Json → Except DecodeError (Finset String)
  | .arr xs =>
    match decodeStrs xs with
    | .error e => .error e
    | .ok ns => .ok ns.toFinset
  | _ => .error .wrongShape

/-- Decode `PeerInfo` from its three-field object. -/
def decodePeerInfo (j : Json) : Except DecodeError PeerInfo :=
  match j with
  | .obj [(k1, a), (k2, b), (k3, c)] =>
    if k1 = "peers_online" ∧ k2 = "peer_spots_left" ∧ k3 = "peer_names" then
      match asI32 a with
      | .error e => .error e
      | .ok x =>
        match asI32 b with
        | .error e => .error e
        | .ok y =>
          match asNameSet c with
          | .error e => .error e
          | .ok ns => .ok ⟨x, y, ns⟩
    else .error .wrongShape
  | _ => .error .wrongShape

/-- Decode the externally tagged `MessageType`.  A value that carries none of
the seven tags fails with `missingTag`; a tag with the wrong payload shape
fails with `wrongShape`. -/
def decodeMsgType (j : Json) : Except DecodeError MessageType :=
  match j with
  | .str s =>
    if s = "PeerInfoRequest" then .ok .PeerInfoRequest
    else if s = "Text" then .ok .Text
    else .error .missingTag
  | .obj l =>
    match l with
    | [(tag, payload)] =>
      if tag = "NewPeer" then (asStr payload).map .NewPeer
      else if tag = "DisconPeer" then (asStr payload).map .DisconPeer
      else if tag = "PeerNameAssign" then (asStr payload).map .PeerNameAssign
      else if tag = "Private" then (asStr payload).map .Private
      else if tag = "PeerInfoReply" then (decodePeerInfo payload).map .PeerInfoReply
      else .error .missingTag
    | _ => .error .missingTag
  | _ => .error .missingTag

/-- Decode a `Message` from its four-field object. -/
def decodeMessage (j : Json) : Except DecodeError Message :=
  match j with
  | .obj [(k1, v1), (k2, v2), (k3, v3), (k4, v4)] =>
    if k1 = "src_name" ∧ k2 = "src_addr" ∧ k3 = "msg_type" ∧ k4 = "text" then
      match asStr v1 with
      | .error e => .error e
      | .ok sn =>
        match asStr v2 with
        | .error e => .error e
        | .ok sa =>
          match decodeMsgType v3 with
          | .error e => .error e
          | .ok mt =>
            match asStr v4 with
            | .error e => .error e
            | .ok tx => .ok ⟨sn, sa, mt, tx⟩
    else .error .wrongShape
  | _ => .error .wrongShape

/-- `decode`: `serde_json::from_str::<Message>` on one frame. -/
def decode : Frame → Except DecodeError Message
  | .malformed => .error .invalidText
  | .json j => decodeMessage j

/-- A `PeerInfo` value representable in the Rust types: both `i32` fields in
range. -/
def wfPeerInfo (p : PeerInfo) : Bool :=
  inRangeI32 p.peers_online && inRangeI32 p.peer_spots_left

/-- A `Message` value representable in the Rust types. -/
def wfMessage (m : Message) : Bool :=
  match m.msg_type with
  | .PeerInfoReply p => wfPeerInfo p
  | _ => true

theorem decodeStrs_map_str (l : List String) :
    decodeStrs (l.map .str) = .ok l := by
  induction l with
  | nil => rfl
  | cons s rest ih => simp [decodeStrs, asStr, ih]

theorem decodePeerInfo_encode (p : PeerInfo) (hp : wfPeerInfo p = true) :
    decodePeerInfo (encodePeerInfo p) = .ok p := by
  cases p with
  | mk a b ns =>
    simp only [wfPeerInfo, Bool.and_eq_true] at hp
    simp [encodePeerInfo, decodePeerInfo, asI32, asNameSet, hp.1, hp.2,
      decodeStrs_map_str, sortedNames, Finset.sort_toFinset]

theorem decodeMsgType_encode (t : MessageType)
    (ht : wfMessage ⟨"", "", t, ""⟩ = true) :
    decodeMsgType (encodeMsgType t) = .ok t := by
  cases t with
  | NewPeer s => simp [encodeMsgType, decodeMsgType, asStr, Except.map]
  | DisconPeer s => simp [encodeMsgType, decodeMsgType, asStr, Except.map]
  | PeerNameAssign s => simp [encodeMsgType, decodeMsgType, asStr, Except.map]
  | PeerInfoRequest => rfl
  | PeerInfoReply p =>
    simp only [wfMessage] at ht
    simp [encodeMsgType, decodeMsgType, decodePeerInfo_encode p ht, Except.map]
  | Private s => simp [encodeMsgType, decodeMsgType, asStr, Except.map]
  | Text => rfl

/-- Round trip helper: every `Message` representable in the Rust types
decodes back from its encoding equal in every field. -/
theorem decode_encode (m : Message) (hm : wfMessage m = true) :
    decode (encode m) = .ok m := by
  cases m with
  | mk sn sa mt tx =>
    have ht : wfMessage ⟨"", "", mt, ""⟩ = true := by
      simpa [wfMessage] using hm
    simp [encode, decode, encodeMessage, decodeMessage, asStr,
      decodeMsgType_encode mt ht]

/-- Success flag of a decode step. -/
def isOkE {α : Type} : Except DecodeError α → Bool
  | .ok _ => true
  | .error _ => false

/-- The value is a JSON string. -/
def isStrJ : Json → Bool
  | .str _ => true
  | _ => false

/-- The value is a JSON number in `i32` range. -/
def isI32J : Json → Bool
  | .num n => inRangeI32 n
  | _ => false

/-- The value is a JSON array of strings (shape of a `HashSet<String>`). -/
def wfNamesJ : Json → Bool
  | .arr xs => xs.all isStrJ
  | _ => false

/-- Shape of a well-formed `PeerInfo` payload. -/
def wfPeerInfoJ : Json → Bool
  | .obj [(k1, a), (k2, b), (k3, c)] =>
    if k1 = "peers_online" ∧ k2 = "peer_spots_left" ∧ k3 = "peer_names" then
      isI32J a && isI32J b && wfNamesJ c
    else false
  | _ => false

/-- Shape of a well-formed `msg_type` value: it carries one of the seven tags
with the right payload shape. -/
def wfTagJ : Json → Bool
  | .str s =>
    if s = "PeerInfoRequest" then true
    else if s = "Text" then true
    else false
  | .obj l =>
    match l with
    | [(tag, payload)] =>
      if tag = "NewPeer" then isStrJ payload
      else if tag = "DisconPeer" then isStrJ payload
      else if tag = "PeerNameAssign" then isStrJ payload
      else if tag = "Private" then isStrJ payload
      else if tag = "PeerInfoReply" then wfPeerInfoJ payload
      else false
    | _ => false
  | _ => false

/-- Well-formed encoding of the `Message` union, as the spec characterizes
it: the frame parses as JSON, has the four fields with string shapes, and a
`msg_type` carrying one of the seven tags with the right payload shape. -/
def wellFormedMessageJ : Json → Bool
  | .obj [(k1, v1), (k2, v2), (k3, v3), (k4, v4)] =>
    if k1 = "src_name" ∧ k2 = "src_addr" ∧ k3 = "msg_type" ∧ k4 = "text" then
      isStrJ v1 && isStrJ v2 && wfTagJ v3 && isStrJ v4
    else false
  | _ => false

/-- Well-formed frame: valid text that parses as a well-formed encoding. -/
def wellFormedFrame : Frame → Bool
  | .malformed => false
  | .json j => wellFormedMessageJ j

theorem asStr_isOk (j : Json) : isOkE (asStr j) = isStrJ j := by
  cases j <;> rfl

theorem asI32_isOk (j : Json) : isOkE (asI32 j) = isI32J j := by
  cases j with
  | num n =>
    simp only [asI32, isI32J]
    split <;> simp_all [isOkE]
  | str s => rfl
  | arr xs => rfl
  | obj l => rfl

theorem decodeStrs_isOk (xs : List Json) :
    isOkE (decodeStrs xs) = xs.all isStrJ := by
  induction xs with
  | nil => rfl
  | cons j js ih =>
    simp only [decodeStrs, List.all_cons]
    rw [← asStr_isOk]
    cases hj : asStr j with
    | error e => simp [isOkE]
    | ok s =>
      simp only [isOkE, Bool.true_and]
      rw [← ih]
      cases hr : decodeStrs js with
      | error e => simp [isOkE]
      | ok rest => simp [isOkE]

theorem asNameSet_isOk (j : Json) : isOkE (asNameSet j) = wfNamesJ j := by
  cases j with
  | arr xs =>
    simp only [asNameSet, wfNamesJ]
    rw [← decodeStrs_isOk]
    cases hr : decodeStrs xs with
    | error e => simp [isOkE]
    | ok ns => simp [isOkE]
  | str s => rfl
  | num n => rfl
  | obj l => rfl

theorem decodePeerInfo_isOk (j : Json) :
    isOkE (decodePeerInfo j) = wfPeerInfoJ j := by
  cases j with
  | obj l =>
    rcases l with _ | ⟨⟨k1, a⟩, _ | ⟨⟨k2, b⟩, _ | ⟨⟨k3, c⟩, _ | ⟨⟨k4, d⟩, l5⟩⟩⟩⟩
    · rfl
    · rfl
    · rfl
    · simp only [decodePeerInfo, wfPeerInfoJ]
      split
      · rw [← asI32_isOk a, ← asI32_isOk b, ← asNameSet_isOk c]
        cases ha : asI32 a with
        | error e => simp [isOkE]
        | ok x =>
          cases hb : asI32 b with
          | error e => simp [isOkE]
          | ok y =>
            cases hc : asNameSet c with
            | error e => simp [isOkE]
            | ok ns => simp [isOkE]
      · rfl
    · rfl
  | str s => rfl
  | num n => rfl
  | arr xs => rfl

theorem map_isOk {α β : Type} (f : α → β) (x : Except DecodeError α) :
    isOkE (x.map f) = isOkE x := by
  cases x <;> rfl

theorem decodeMsgType_isOk (j : Json) :
    isOkE (decodeMsgType j) = wfTagJ j := by
  cases j with
  | str s =>
    simp only [decodeMsgType, wfTagJ]
    split
    · rfl
    · split <;> rfl
  | obj l =>
    rcases l with _ | ⟨⟨tag, payload⟩, _ | ⟨⟨k2, b⟩, l3⟩⟩
    · rfl
    · simp only [decodeMsgType, wfTagJ]
      split
      · rw [map_isOk, asStr_isOk]
      · split
        · rw [map_isOk, asStr_isOk]
        · split
          · rw [map_isOk, asStr_isOk]
          · split
            · rw [map_isOk, asStr_isOk]
            · split
              · rw [map_isOk, decodePeerInfo_isOk]
              · rfl
    · rfl
  | num n => rfl
  | arr xs => rfl

theorem decodeMessage_isOk (j : Json) :
    isOkE (decodeMessage j) = wellFormedMessageJ j := by
  cases j with
  | obj l =>
    rcases l with _ | ⟨⟨k1, v1⟩, _ | ⟨⟨k2, v2⟩, _ | ⟨⟨k3, v3⟩, _ | ⟨⟨k4, v4⟩, _ | ⟨⟨k5, v5⟩, l6⟩⟩⟩⟩⟩
    · rfl
    · rfl
    · rfl
    · rfl
    · simp only [decodeMessage, wellFormedMessageJ]
      split
      · rw [← asStr_isOk v1, ← asStr_isOk v2, ← decodeMsgType_isOk v3, ← asStr_isOk v4]
        cases h1 : asStr v1 with
        | error e => simp [isOkE]
        | ok sn =>
          cases h2 : asStr v2 with
          | error e => simp [isOkE]
          | ok sa =>
            cases h3 : decodeMsgType v3 with
            | error e => simp [isOkE]
            | ok mt =>
              cases h4 : asStr v4 with
              | error e => simp [isOkE]
              | ok tx => simp [isOkE]
      · rfl
    · rfl
  | str s => rfl
  | num n => rfl
  | arr xs => rfl

theorem decode_isOk (f : Frame) : isOkE (decode f) = wellFormedFrame f := by
  cases f with
  | malformed => rfl
  | json j => simpa [decode, wellFormedFrame] using decodeMessage_isOk j

theorem asI32_ok_range {j : Json} {x : Int} (h : asI32 j = .ok x) :
    inRangeI32 x = true := by
  cases j <;> simp only [asI32] at h <;> try exact Except.noConfusion h
  case num n =>
    split at h
    · obtain rfl : n = x := by injection h
      assumption
    · exact Except.noConfusion h

theorem decodePeerInfo_ok_wf {j : Json} {p : PeerInfo}
    (h : decodePeerInfo j = .ok p) : wfPeerInfo p = true := by
  cases j with
  | obj l =>
    rcases l with _ | ⟨⟨k1, a⟩, _ | ⟨⟨k2, b⟩, _ | ⟨⟨k3, c⟩, _ | ⟨⟨k4, d⟩, l5⟩⟩⟩⟩ <;>
      simp only [decodePeerInfo] at h <;> try exact Except.noConfusion h
    split at h
    · cases ha : asI32 a <;> rw [ha] at h <;> try exact Except.noConfusion h
      cases hb : asI32 b <;> rw [hb] at h <;> try exact Except.noConfusion h
      cases hc : asNameSet c <;> rw [hc] at h <;> try exact Except.noConfusion h
      obtain rfl : (⟨_, _, _⟩ : PeerInfo) = p := by injection h
      simp [wfPeerInfo, asI32_ok_range ha, asI32_ok_range hb]
    · exact Except.noConfusion h
  | str s => exact Except.noConfusion h
  | num n => exact Except.noConfusion h
  | arr xs => exact Except.noConfusion h

theorem decodeMsgType_ok_reply {j : Json} {p : PeerInfo}
    (h : decodeMsgType j = .ok (.PeerInfoReply p)) : wfPeerInfo p = true := by
  cases j with
  | str s =>
    simp only [decodeMsgType] at h
    split at h
    · simp at h
    · split at h
      · simp at h
      · exact Except.noConfusion h
  | obj l =>
    rcases l with _ | ⟨⟨tag, payload⟩, _ | ⟨⟨k2, b⟩, l3⟩⟩ <;>
      simp only [decodeMsgType] at h <;> try exact Except.noConfusion h
    split at h
    · cases hs : asStr payload <;> simp [hs, Except.map] at h
    · split at h
      · cases hs : asStr payload <;> simp [hs, Except.map] at h
      · split at h
        · cases hs : asStr payload <;> simp [hs, Except.map] at h
        · split at h
          · cases hs : asStr payload <;> simp [hs, Except.map] at h
          · split at h
            · cases hd : decodePeerInfo payload <;> simp [hd, Except.map] at h
              obtain rfl : _ = p := h
              exact decodePeerInfo_ok_wf hd
            · exact Except.noConfusion h
  | num n => exact Except.noConfusion h
  | arr xs => exact Except.noConfusion h

theorem decodeMessage_ok_reply {j : Json} {m : Message} {p : PeerInfo}
    (h : decodeMessage j = .ok m) (hmt : m.msg_type = .PeerInfoReply p) :
    wfPeerInfo p = true := by
  cases j with
  | obj l =>
    rcases l with _ | ⟨⟨k1, v1⟩, _ | ⟨⟨k2, v2⟩, _ | ⟨⟨k3, v3⟩, _ | ⟨⟨k4, v4⟩, _ | ⟨⟨k5, v5⟩, l6⟩⟩⟩⟩⟩ <;>
      simp only [decodeMessage] at h <;> try exact Except.noConfusion h
    split at h
    · cases h1 : asStr v1 <;> rw [h1] at h <;> try exact Except.noConfusion h
      cases h2 : asStr v2 <;> rw [h2] at h <;> try exact Except.noConfusion h
      cases h3 : decodeMsgType v3 <;> rw [h3] at h <;> try exact Except.noConfusion h
      cases h4 : asStr v4 <;> rw [h4] at h <;> try exact Except.noConfusion h
      obtain rfl : (⟨_, _, _, _⟩ : Message) = m := by injection h
      simp only at hmt
      subst hmt
      exact decodeMsgType_ok_reply h3
    · exact Except.noConfusion h
  | str s => exact Except.noConfusion h
  | num n => exact Except.noConfusion h
  | arr xs => exact Except.noConfusion h

theorem decode_ok_reply {f : Frame} {m : Message} {p : PeerInfo}
    (h : decode f = .ok m) (hmt : m.msg_type = .PeerInfoReply p) :
    wfPeerInfo p = true := by
  cases f with
  | malformed => exact Except.noConfusion h
  | json j => exact decodeMessage_ok_reply h hmt

/-- The client session entity (`struct Client`). -/
structure Client where
  addr : String
  name : String
deriving DecidableEq

/-- `Client::new`: stores the target address, name starts empty. -/
def Client.new (addr : String) : Client :=
  ⟨addr, ""⟩

/-- The welcome line printed when the handshake receives the identity. -/
def welcomeLine (n : String) : String :=
  "\n[Chat] Welcome to Rust-Chat, " ++ n ++ "!"

/-- The `AwaitingIdentity` loop of `Client::connect`: decode successive
inbound frames (a decode failure `unwrap`s, i.e. panics: `none`), discard
every variant except `PeerNameAssign`, which assigns the carried name,
prints the welcome line and breaks.  Returns the updated client, the lines
written during the handshake, and the frames left for the ready phase;
`none` also when the stream ends with no identity assigned (the code then
loops forever). -/
def runHandshake (c : Client) : List Frame → Option (Client × List String × List Frame)
  | [] => none
  | f :: fs =>
    match decode f with
    | .error _ => none
    | .ok m =>
      match m.msg_type with
      | .PeerNameAssign n => some ({ c with name := n }, [welcomeLine n], fs)
      | _ => runHandshake c fs

/-- Debug rendering of the peer-name set (`{:?}` of `HashSet<String>`,
iteration order modelled as sorted). -/
def setDebug (s : Finset String) : String :=
  "\x7b" ++ String.intercalate ", " ((sortedNames s).map (fun x => "\"" ++ x ++ "\"")) ++ "\x7d"

/-- Debug rendering of `PeerInfo` (`{:?}` of the derived `Debug`). -/
def peerInfoDebug (p : PeerInfo) : String :=
  "PeerInfo \x7b peers_online: " ++ toString p.peers_online ++
    ", peer_spots_left: " ++ toString p.peer_spots_left ++
    ", peer_names: " ++ setDebug p.peer_names ++ " \x7d"

/-- One iteration of the `ws_to_stdout` loop body on a decoded message: the
seven match arms of `Client::connect` after `Ready`.  Every arm only writes a
line; none assigns `self.name` or `self.addr`, so each returns the client
unchanged. -/
def readyStep (c : Client) (m : Message) : Client × String :=
  match m.msg_type with
  | .NewPeer peer =>
    (c, "\n[Chat] " ++ m.src_name ++ ": " ++ peer ++ " has connected.")
  | .DisconPeer peer =>
    (c, "\n[Chat] " ++ m.src_name ++ ": " ++ peer ++ " has disconnected.")
  | .Text =>
    (c, "\n[Chat] " ++ m.src_name ++ ": " ++ m.text)
  | .PeerInfoRequest =>
    (c, "\n[PeerDataRequest] " ++ m.src_name ++ ": " ++ m.text)
  | .PeerInfoReply p =>
    (c, "\n[PeerDataReply] " ++ m.src_name ++ ": " ++ peerInfoDebug p)
  | .PeerNameAssign n =>
    (c, "\n[PeerName] " ++ m.src_name ++ ": " ++ m.text ++ ", " ++ n)
  | .Private n =>
    (c, "\n[PM] " ++ m.src_name ++ ": " ++ m.text ++ ": " ++ n)

/-- The `ws_to_stdout` loop after `Ready`: read frames until the inbound
stream ends, decode each (`unwrap`: a decode failure panics and aborts the
session at once — flag `true`, nothing further processed), render each
decoded message.  Returns the final client, the rendered lines in order, and
whether the loop aborted on a decode failure. -/
def wsToStdout (c : Client) : List Frame → Client × List String × Bool
  | [] => (c, [], false)
  | f :: fs =>
    match decode f with
    | .error _ => (c, [], true)
    | .ok m =>
      let st := readyStep c m
      let rest := wsToStdout st.1 fs
      (rest.1, st.2 :: rest.2.1, rest.2.2)

theorem readyStep_fst (c : Client) (m : Message) : (readyStep c m).1 = c := by
  cases h : m.msg_type <;> simp [readyStep, h]

theorem wsToStdout_fst (c : Client) (fs : List Frame) :
    (wsToStdout c fs).1 = c := by
  induction fs generalizing c with
  | nil => rfl
  | cons f fs ih =>
    simp only [wsToStdout]
    cases hd : decode f with
    | error e => rfl
    | ok m =>
      simp only [readyStep_fst]
      exact ih c

/-- Rust `String::ends_with(char)`: the last character equals `c`. -/
def endsWithChar (s : String) (c : Char) : Bool :=
  s.data.getLast? == some c

/-- Rust `String::pop`: drop the last character. -/
def strPop (s : String) : String :=
  ⟨s.data.dropLast⟩

/-- The line-terminator stripping of `read_stdin`: pop a trailing newline
and, if one then remains, a trailing carriage return. -/
def stripLine (s : String) : String :=
  if endsWithChar s '\n' then
    let s2 := strPop s
    if endsWithChar s2 '\r' then strPop s2 else s2
  else s

/-- Rust `str::starts_with(&str)` at character level. -/
def startsWithChars : List Char → List Char → Bool
  | _, [] => true
  | [], _ :: _ => false
  | c :: cs, p :: ps => c == p && startsWithChars cs ps

/-- Rust `str::starts_with` on strings. -/
def strStarts (s p : String) : Bool :=
  startsWithChars s.data p.data

/-- Rust `str::split(" ")` at character level: split at every single space,
keeping empty tokens. -/
def splitSpaces : List Char → List (List Char)
  | [] => [[]]
  | c :: rest =>
    if c = ' ' then [] :: splitSpaces rest
    else
      match splitSpaces rest with
      | t :: ts => (c :: t) :: ts
      | [] => [[c]]

/-- Rust `msg.split(" ").collect::<Vec<&str>>()`. -/
def splitSp (s : String) : List String :=
  (splitSpaces s.data).map fun l => ⟨l⟩

/-- The command grammar of `read_stdin` applied to a stripped line: the
`"pm: "` branch indexes `split[1]` and `split[2]` without a bounds check
(`none` models that panic), the `"peerdatarequest"` branch sends a
`PeerInfoRequest` with empty text, anything else is a broadcast `Text`
carrying the whole line. -/
def parseCmd (peer_name local_addr msg : String) : Option Message :=
  if strStarts msg "pm: " then
    let split := splitSp msg
    if h : 2 < split.length then
      some ⟨peer_name, local_addr, .Private (split.get ⟨1, by omega⟩),
            split.get ⟨2, h⟩⟩
    else none
  else if strStarts msg "peerdatarequest" then
    some ⟨peer_name, local_addr, .PeerInfoRequest, ""⟩
  else
    some ⟨peer_name, local_addr, .Text, msg⟩

/-- One `read_stdin` iteration on a chunk read from stdin: strip the line
terminator, then apply the command grammar. -/
def parseLine (peer_name local_addr line : String) : Option Message :=
  parseCmd peer_name local_addr (stripLine line)

/-- Result of one `stdin.read`: a failure, or a chunk of bytes (`ok ""` is
`Ok(0)`, the end-of-stream read). -/
inductive ReadResult where
  | err
  | ok (chunk : String)

/-- The `read_stdin` loop over a sequence of reads: a read failure or a
zero-byte read breaks the loop; otherwise the chunk is parsed and the message
sent.  `none` models the panic of the `"pm: "` branch. -/
def readStdin (peer_name local_addr : String) : List ReadResult → Option (List Message)
  | [] => some []
  | .err :: _ => some []
  | .ok chunk :: rest =>
    if chunk = "" then some []
    else
      match parseLine peer_name local_addr chunk with
      | none => none
      | some m => (readStdin peer_name local_addr rest).map (m :: ·)

theorem data_append (s t : String) : (s ++ t).data = s.data ++ t.data := by
  cases s
  cases t
  rfl

theorem stripLine_id {s : String} (h : endsWithChar s '\n' = false) :
    stripLine s = s := by
  simp [stripLine, h]

theorem stripLine_newline {s : String} (h : endsWithChar s '\r' = false) :
    stripLine (s ++ "\n") = s := by
  have hd : (s ++ "\n").data = s.data ++ ['\n'] := data_append s "\n"
  have h1 : endsWithChar (s ++ "\n") '\n' = true := by
    simp [endsWithChar, hd, List.getLast?_concat]
  have h2 : strPop (s ++ "\n") = s := by
    simp only [strPop, hd, List.dropLast_concat]
  simp [stripLine, h1, h2, h]

theorem stripLine_crlf (s : String) : stripLine (s ++ "\r\n") = s := by
  have hd : (s ++ "\r\n").data = (s.data ++ ['\r']) ++ ['\n'] := by
    rw [data_append]
    simp
  have h1 : endsWithChar (s ++ "\r\n") '\n' = true := by
    simp [endsWithChar, hd, List.getLast?_concat]
  have h2 : strPop (s ++ "\r\n") = ⟨s.data ++ ['\r']⟩ := by
    simp only [strPop, hd, List.dropLast_concat]
  have h3 : endsWithChar (strPop (s ++ "\r\n")) '\r' = true := by
    rw [h2]
    simp [endsWithChar, List.getLast?_concat]
  have h4 : strPop (strPop (s ++ "\r\n")) = s := by
    rw [h2]
    simp only [strPop, List.dropLast_concat]
  simp [stripLine, h1, h3, h4]

theorem error_iff_not_isOk (x : Except DecodeError Message) :
    (∃ e, x = .error e) ↔ isOkE x = false := by
  cases x <;> simp [isOkE]

/-! Concrete values used by the witnesses and counterexamples. -/

/-- A frame carrying a `PeerInfoReply` whose counts are negative. -/
def negFrame : Frame :=
  .json (.obj [("src_name", .str "srv"), ("src_addr", .str "10.0.0.1:1"),
    ("msg_type", .obj [("PeerInfoReply",
      .obj [("peers_online", .num (-1)), ("peer_spots_left", .num (-1)),
            ("peer_names", .arr [])])]),
    ("text", .str "")])

/-- A frame assigning the identity "alice". -/
def pnaFrame : Frame :=
  encode ⟨"server", "0.0.0.0:0", .PeerNameAssign "alice", ""⟩

/-- A broadcast message used as handshake noise / ready-phase traffic. -/
def chatMsg : Message :=
  ⟨"bob", "10.0.0.2:2", .Text, "hi"⟩

/-! The claims. -/

/-- C1: for every `Message` built from any of the seven `MessageType`
variants with any representable payloads (the `i32` fields of `PeerInfo` in
range, which every Rust-constructed value satisfies), decoding the frame
produced by encoding it yields a message equal in every field. -/
theorem claim1_roundtrip (m : Message) (hm : wfMessage m = true) :
    decode (encode m) = .ok m :=
  decode_encode m hm

theorem claim1_roundtrip_witness :
    wfMessage ⟨"s", "a", .PeerInfoReply ⟨0, 0, ∅⟩, ""⟩ = true ∧
      decode (encode ⟨"s", "a", .PeerInfoReply ⟨0, 0, ∅⟩, ""⟩) =
        .ok ⟨"s", "a", .PeerInfoReply ⟨0, 0, ∅⟩, ""⟩ :=
  ⟨by decide, claim1_roundtrip ⟨"s", "a", .PeerInfoReply ⟨0, 0, ∅⟩, ""⟩ (by decide)⟩

/-- C2: a line beginning with `"pm: "` is split on single spaces; whenever
the third token exists the parse yields `Private` of the token right after
the prefix with the single following token as text, and in particular
`"pm: bob hello"` and `"pm: bob hello world"` both yield
`Private "bob"` with text `"hello"`. -/
theorem claim2_pm_parsing :
    (∀ (n a msg : String), strStarts msg "pm: " = true →
      ∀ (h2 : 2 < (splitSp msg).length),
        parseCmd n a msg =
          some ⟨n, a, .Private ((splitSp msg).get ⟨1, by omega⟩),
                (splitSp msg).get ⟨2, h2⟩⟩)
    ∧ (∀ n a, parseCmd n a "pm: bob hello" = some ⟨n, a, .Private "bob", "hello"⟩)
    ∧ (∀ n a, parseCmd n a "pm: bob hello world" =
        some ⟨n, a, .Private "bob", "hello"⟩) := by
  refine ⟨?_, fun n a => rfl, fun n a => rfl⟩
  intro n a msg h1 h2
  simp only [parseCmd, h1, if_true]
  rw [dif_pos h2]

theorem claim2_pm_parsing_witness :
    parseCmd "x" "y" "pm: bob hello" = some ⟨"x", "y", .Private "bob", "hello"⟩ :=
  (claim2_pm_parsing.1 "x" "y" "pm: bob hello" (by decide) (by decide)).trans (by rfl)

/-- C3: during `AwaitingIdentity`, any run of well-formed frames whose
variant is not `PeerNameAssign` is discarded with no output and no state
change; the first `PeerNameAssign` frame sets the session's `name` to the
carried value, prints exactly the welcome line, and ends the handshake,
leaving the remaining frames to the ready phase. -/
theorem claim3_handshake (c : Client) (pre : List Message) (m : Message)
    (n : String) (rest : List Frame)
    (hwf : ∀ p ∈ pre, wfMessage p = true)
    (hnp : ∀ p ∈ pre, ∀ s, p.msg_type ≠ .PeerNameAssign s)
    (hmt : m.msg_type = .PeerNameAssign n) :
    runHandshake c (pre.map encode ++ encode m :: rest) =
      some ({ c with name := n }, [welcomeLine n], rest) := by
  have hm : wfMessage m = true := by simp [wfMessage, hmt]
  induction pre with
  | nil =>
    simp only [List.map_nil, List.nil_append, runHandshake,
      decode_encode m hm, hmt]
  | cons p ps ih =>
    have hp : wfMessage p = true := hwf p (by simp)
    simp only [List.map_cons, List.cons_append, runHandshake,
      decode_encode p hp]
    cases hpt : p.msg_type with
    | PeerNameAssign s => exact absurd hpt (hnp p (by simp) s)
    | NewPeer s => exact ih (fun q hq => hwf q (by simp [hq])) (fun q hq => hnp q (by simp [hq]))
    | DisconPeer s => exact ih (fun q hq => hwf q (by simp [hq])) (fun q hq => hnp q (by simp [hq]))
    | PeerInfoRequest => exact ih (fun q hq => hwf q (by simp [hq])) (fun q hq => hnp q (by simp [hq]))
    | PeerInfoReply s => exact ih (fun q hq => hwf q (by simp [hq])) (fun q hq => hnp q (by simp [hq]))
    | Private s => exact ih (fun q hq => hwf q (by simp [hq])) (fun q hq => hnp q (by simp [hq]))
    | Text => exact ih (fun q hq => hwf q (by simp [hq])) (fun q hq => hnp q (by simp [hq]))

theorem claim3_handshake_witness :
    runHandshake (Client.new "127.0.0.1:8080")
        ([chatMsg].map encode ++ pnaFrame :: []) =
      some ({ Client.new "127.0.0.1:8080" with name := "alice" },
            [welcomeLine "alice"], []) :=
  claim3_handshake (Client.new "127.0.0.1:8080") [chatMsg]
    ⟨"server", "0.0.0.0:0", .PeerNameAssign "alice", ""⟩ "alice" []
    (by decide)
    (by
      intro p hp s
      rw [List.mem_singleton] at hp
      subst hp
      simp [chatMsg])
    rfl

/-- C4: the session name is empty at construction and assigned exactly once:
`Client::new` stores the address with an empty name, the handshake preserves
`addr`, the ready-phase loop never changes the client state, and a
`PeerNameAssign` received after `Ready` is rendered as a `[PeerName]` line
while leaving the client untouched. -/
theorem claim4_name_invariant :
    (∀ addr, Client.new addr = ⟨addr, ""⟩)
    ∧ (∀ (c : Client) (fs : List Frame) (c2 : Client) (out : List String)
        (rest : List Frame), runHandshake c fs = some (c2, out, rest) →
          c2.addr = c.addr)
    ∧ (∀ (c : Client) (fs : List Frame), (wsToStdout c fs).1 = c)
    ∧ (∀ (c : Client) (m : Message) (n : String),
        m.msg_type = .PeerNameAssign n →
          readyStep c m =
            (c, "\n[PeerName] " ++ m.src_name ++ ": " ++ m.text ++ ", " ++ n)) := by
  refine ⟨fun addr => rfl, ?_, wsToStdout_fst, ?_⟩
  · intro c fs c2 out rest h
    induction fs with
    | nil => simp [runHandshake] at h
    | cons f fs ih =>
      cases hd : decode f with
      | error e => simp [runHandshake, hd] at h
      | ok m =>
        cases hm : m.msg_type
        case PeerNameAssign s =>
          simp only [runHandshake, hd, hm, Option.some.injEq, Prod.mk.injEq] at h
          rw [← h.1]
        all_goals simp only [runHandshake, hd, hm] at h
        all_goals exact ih h
  · intro c m n hmt
    simp [readyStep, hmt]

theorem claim4_name_invariant_witness :
    (⟨"127.0.0.1:8080", "alice"⟩ : Client).addr = (Client.new "127.0.0.1:8080").addr ∧
      readyStep (Client.new "127.0.0.1:8080") ⟨"srv", "1.2.3.4:5", .PeerNameAssign "carol", "t"⟩ =
        (Client.new "127.0.0.1:8080", "\n[PeerName] srv: t, carol") :=
  ⟨claim4_name_invariant.2.1 (Client.new "127.0.0.1:8080") [pnaFrame]
      ⟨"127.0.0.1:8080", "alice"⟩ [welcomeLine "alice"] [] (by rfl),
   (claim4_name_invariant.2.2.2 (Client.new "127.0.0.1:8080")
      ⟨"srv", "1.2.3.4:5", .PeerNameAssign "carol", "t"⟩ "carol" rfl).trans (by rfl)⟩

/-- C5: decoding fails with a `DecodeError` exactly on the frames that are
not a well-formed encoding of the `Message` union, and in the ready-phase
loop a decode failure is fatal: the session aborts at once, the failing
frame renders nothing and no later frame is processed. -/
theorem claim5_decode_error_fatal :
    (∀ f : Frame, (∃ e, decode f = .error e) ↔ wellFormedFrame f = false)
    ∧ (∀ (c : Client) (pre : List Frame) (f : Frame) (post : List Frame)
        (e : DecodeError), (∀ fr ∈ pre, isOkE (decode fr) = true) →
          decode f = .error e →
          wsToStdout c (pre ++ f :: post) = (c, (wsToStdout c pre).2.1, true)) := by
  constructor
  · intro f
    rw [error_iff_not_isOk, decode_isOk]
  · intro c pre f post e hok hf
    induction pre with
    | nil => simp [wsToStdout, hf]
    | cons p ps ih =>
      have hp : isOkE (decode p) = true := hok p (by simp)
      cases hd : decode p with
      | error e2 => rw [hd] at hp; exact absurd hp (by simp [isOkE])
      | ok m =>
        simp only [List.cons_append, wsToStdout, hd, readyStep_fst,
          List.append_eq]
        rw [ih (fun q hq => hok q (by simp [hq]))]

theorem claim5_decode_error_fatal_witness :
    wsToStdout (Client.new "127.0.0.1:8080") ([encode chatMsg] ++ Frame.malformed :: []) =
      (Client.new "127.0.0.1:8080",
       (wsToStdout (Client.new "127.0.0.1:8080") [encode chatMsg]).2.1, true) :=
  claim5_decode_error_fatal.2 (Client.new "127.0.0.1:8080") [encode chatMsg]
    Frame.malformed [] .invalidText (by decide) rfl

/-- C6: a trimmed line that starts with neither `"pm: "` nor
`"peerdatarequest"` — the empty line included — parses to a broadcast `Text`
message carrying the whole line and the session's `src_name` and `src_addr`;
an empty line read as `"\n"` is a zero-length broadcast and the loop
continues, unlike end-of-stream. -/
theorem claim6_broadcast :
    (∀ n a msg, strStarts msg "pm: " = false →
      strStarts msg "peerdatarequest" = false →
        parseCmd n a msg = some ⟨n, a, .Text, msg⟩)
    ∧ (∀ n a, parseCmd n a "" = some ⟨n, a, .Text, ""⟩)
    ∧ (∀ (n a : String) (rest : List ReadResult),
        readStdin n a (.ok "\n" :: rest) =
          (readStdin n a rest).map (List.cons ⟨n, a, .Text, ""⟩)) := by
  refine ⟨?_, fun n a => rfl, fun n a rest => rfl⟩
  intro n a msg h1 h2
  simp [parseCmd, h1, h2]

theorem claim6_broadcast_witness :
    parseCmd "x" "y" "hello world" = some ⟨"x", "y", .Text, "hello world"⟩ :=
  claim6_broadcast.1 "x" "y" "hello world" (by decide) (by decide)

/-- C7: a read failure or a zero-byte read ends the `read_stdin` loop: no
message is produced for that read and none afterwards. -/
theorem claim7_eof (n a : String) (rest : List ReadResult) :
    readStdin n a (.err :: rest) = some [] ∧
      readStdin n a (.ok "" :: rest) = some [] :=
  ⟨rfl, rfl⟩

/-- C8 counterexample: for line content ending in a carriage return the
claimed normalization fails — `"a\r"` parses to `Text "a\r"` while
`"a\r" ++ "\n"` is stripped down to `"a"`, so the two inputs do not produce
the same message. -/
theorem claim8_counterexample :
    ¬ parseLine "x" "y" ("a\r" ++ "\n") = parseLine "x" "y" "a\r" := by
  decide

/-- C8 (amended): for every line content that does not itself end in `'\n'`
or `'\r'`, the parser produces the same message from the content alone, from
the content followed by `"\n"`, and from the content followed by
`"\r\n"`. -/
theorem claim8_line_normalization (n a s : String)
    (h1 : endsWithChar s '\n' = false) (h2 : endsWithChar s '\r' = false) :
    parseLine n a (s ++ "\n") = parseLine n a s ∧
      parseLine n a (s ++ "\r\n") = parseLine n a s := by
  constructor
  · simp only [parseLine, stripLine_newline h2, stripLine_id h1]
  · simp only [parseLine, stripLine_crlf, stripLine_id h1]

theorem claim8_line_normalization_witness :
    parseLine "x" "y" ("hello" ++ "\n") = parseLine "x" "y" "hello" ∧
      parseLine "x" "y" ("hello" ++ "\r\n") = parseLine "x" "y" "hello" :=
  claim8_line_normalization "x" "y" "hello" (by decide) (by decide)

/-- C9: the `"pm: "` branch is partial — whenever the stripped line starts
with `"pm: "` but splits into fewer than three space-separated tokens the
unchecked indexing `split[2]` panics (modelled `none`), e.g. on
`"pm: bob"` and `"pm: "`, and the panic kills the whole `read_stdin`
loop. -/
theorem claim9_pm_panics :
    (∀ n a msg, strStarts msg "pm: " = true → (splitSp msg).length < 3 →
      parseCmd n a msg = none)
    ∧ (∀ n a, parseCmd n a "pm: bob" = none)
    ∧ (∀ n a, parseCmd n a "pm: " = none)
    ∧ (∀ (n a : String) (rest : List ReadResult),
        readStdin n a (.ok "pm: bob" :: rest) = none) := by
  refine ⟨?_, fun n a => rfl, fun n a => rfl, fun n a rest => rfl⟩
  intro n a msg h1 h2
  simp only [parseCmd, h1, if_true]
  rw [dif_neg (by omega)]

theorem claim9_pm_panics_witness :
    parseCmd "x" "y" "pm: bob" = none :=
  claim9_pm_panics.1 "x" "y" "pm: bob" (by decide) (by decide)

/-- C10 counterexample: `decode` accepts negative counts — the concrete
well-shaped frame `negFrame` decodes to a `PeerInfoReply` whose
`peers_online` and `peer_spots_left` are `-1 < 0`. -/
theorem claim10_counterexample :
    decode negFrame =
        .ok ⟨"srv", "10.0.0.1:1", .PeerInfoReply ⟨-1, -1, ∅⟩, ""⟩ ∧
      (-1 : Int) < 0 :=
  ⟨rfl, by decide⟩

/-- C10 (amended): the counts of a decoded `PeerInfoReply` are only
constrained to the `i32` range (serde rejects out-of-range numbers); they
may be negative, since the fields are `i32`, not unsigned. -/
theorem claim10_counts_range (f : Frame) (m : Message) (p : PeerInfo)
    (h : decode f = .ok m) (hmt : m.msg_type = .PeerInfoReply p) :
    -2147483648 ≤ p.peers_online ∧ p.peers_online < 2147483648 ∧
      -2147483648 ≤ p.peer_spots_left ∧ p.peer_spots_left < 2147483648 := by
  have hw := decode_ok_reply h hmt
  simp only [wfPeerInfo, inRangeI32, Bool.and_eq_true, decide_eq_true_eq] at hw
  exact ⟨hw.1.1, hw.1.2, hw.2.1, hw.2.2⟩

theorem claim10_counts_range_witness :
    -2147483648 ≤ (⟨-1, -1, ∅⟩ : PeerInfo).peers_online ∧
      (⟨-1, -1, ∅⟩ : PeerInfo).peers_online < 2147483648 ∧
      -2147483648 ≤ (⟨-1, -1, ∅⟩ : PeerInfo).peer_spots_left ∧
      (⟨-1, -1, ∅⟩ : PeerInfo).peer_spots_left < 2147483648 :=
  claim10_counts_range negFrame
    ⟨"srv", "10.0.0.1:1", .PeerInfoReply ⟨-1, -1, ∅⟩, ""⟩ ⟨-1, -1, ∅⟩ rfl rfl

end RustChat
